import Mathlib

/-! Monitor: supervision of a set of services (`monitor.go`).

A shallow embedding of the Go package `monitor`.  The `Monitor` struct holds
the counter `cnt int32`, the flag `closed`, the channel `done` and the
function `cancel` of a derived `context`.  Every method body and the body of
the observer goroutine spawned by `Watch` run between `m.mu.Lock()` and the
deferred `m.mu.Unlock()`, so each of them is one atomic transition of the
state below.

* the channel `done` is represented by the number of `close(m.done)` calls
  executed so far (`doneCloses`); Go panics on the second close of a channel,
  so a state with `doneCloses ≥ 2` stands for that panic;
* the function `cancel` is represented by the flag `cancelled` of the derived
  context (calling a `context.CancelFunc` again is a no-op on the context) and
  by the number `cancelCalls` of calls of `m.cancel()` made so far;
* the goroutines blocked on `<-srv.Done()` are the list `pending`;
* `log.Printf` output is the list `log`.
-/

namespace Monitor

/-- The Go `int32` value of a mathematical integer: two's complement wrap-around. -/
def wrapInt32 (x : Int) : Int :=
  (x + 2147483648) % 4294967296 - 2147483648

/-- The goroutine spawned by `Watch`: it captured `name` and `srv` and is blocked
on `<-srv.Done()`. -/
structure Observer where
  name : String
  srv : Nat
  deriving DecidableEq, Repr

/-- The `Monitor` struct together with the goroutines it spawned and the log. -/
structure State where
  cnt : Int
  closed : Bool
  cancelled : Bool
  doneCloses : Nat
  pending : List Observer
  log : List String
  cancelCalls : Nat
  deriving DecidableEq, Repr

/-- `New`: a monitor with zero-valued `cnt` and `closed`, a fresh open channel
`done` and the cancel function of a context that is not cancelled yet. -/
def New : State :=
  { cnt := 0, closed := false, cancelled := false, doneCloses := 0, pending := [], log := [],
    cancelCalls := 0 }

/-- `Done` followed by a non-blocking receive (`isDone` of the tests): the
receive succeeds exactly when the channel has been closed. -/
def isDone (s : State) : Bool :=
  decide (0 < s.doneCloses)

/-- `Watch(ctx, name, srv)`: returns at once when `closed`; otherwise `cnt++`
and a goroutine is started for `srv`. -/
def Watch (s : State) (_ctx : Nat) (name : String) (srv : Nat) : State :=
  if s.closed then s
  else { s with cnt := wrapInt32 (s.cnt + 1), pending := s.pending ++ [⟨name, srv⟩] }

/-- The critical section of an observer goroutine after its `<-srv.Done()`
returned: log, `m.cancel()`, `cnt--`, and `close(m.done)` when `cnt == 0 && !closed`. -/
def observerBody (s : State) (o : Observer) : State :=
  let c := wrapInt32 (s.cnt - 1)
  let s1 : State :=
    { s with log := s.log ++ [o.name ++ " exited"], cancelled := true,
             cancelCalls := s.cancelCalls + 1, cnt := c }
  if c = 0 ∧ s1.closed = false then
    { s1 with doneCloses := s1.doneCloses + 1, closed := true }
  else s1

/-- The service of the `i`-th pending observer exits: that goroutine receives
from `srv.Done()`, prints its log line, runs its critical section and is gone
(the log line is taken as part of the same step).  There is no such step when
fewer than `i + 1` observers wait. -/
def serviceExit (s : State) (i : Nat) : Option State :=
  match s.pending[i]? with
  | none => none
  | some o => some (observerBody { s with pending := s.pending.eraseIdx i } o)

/-- `Cancel`: `close(m.done)` when `cnt == 0 && !closed`, then `m.cancel()`. -/
def Cancel (s : State) : State :=
  let s1 : State :=
    if s.cnt = 0 ∧ s.closed = false then
      { s with doneCloses := s.doneCloses + 1, closed := true }
    else s
  { s1 with cancelled := true, cancelCalls := s1.cancelCalls + 1 }

/-- The three atomic steps of a run. -/
inductive Step where
  | watch (ctx : Nat) (name : String) (srv : Nat)
  | exit (i : Nat)
  | cancel
  deriving DecidableEq, Repr

/-- One step; `none` when the step is not enabled. -/
def step (s : State) : Step → Option State
  | .watch ctx name srv => some (Watch s ctx name srv)
  | .exit i => serviceExit s i
  | .cancel => some (Cancel s)

/-- A finite sequence of steps, in the order given. -/
def run (s : State) : List Step → Option State
  | [] => some s
  | st :: rest =>
    match step s st with
    | none => none
    | some s1 => run s1 rest

/-- Whether a step is a `Watch` call. -/
def Step.isWatch : Step → Bool
  | .watch _ _ _ => true
  | _ => false

/-- Whether a step is a service exit. -/
def Step.isExit : Step → Bool
  | .exit _ => true
  | _ => false

/-- The `done` channel was closed at most once and `closed` records it. -/
def CloseInv (s : State) : Prop :=
  s.doneCloses ≤ 1 ∧ (s.closed = true ↔ s.doneCloses = 1)

/-- The counter is the `int32` image of the number of waiting observers. -/
def CountInv (s : State) : Prop :=
  s.cnt = wrapInt32 (s.pending.length : Int)

/-- Once `closed`, no observer waits. -/
def ClosedIdle (s : State) : Prop :=
  s.closed = true → s.pending = []

/-- The number of `Watch` calls in a sequence of steps. -/
def watchCount (steps : List Step) : Nat :=
  steps.countP Step.isWatch

/-- The number of service exits in a sequence of steps. -/
def exitCount (steps : List Step) : Nat :=
  steps.countP Step.isExit

/-- The state after `n` accepted `Watch` calls for the observer `o`, none of
which has exited, on top of `s`. -/
def watched (s : State) (o : Observer) (n : Nat) : State :=
  { s with cnt := wrapInt32 (s.cnt + n), pending := s.pending ++ List.replicate n o }

/-- After registrations only: the counter follows the observers, fewer than
`2^32` of them wait, `closed` holds exactly when none waits, and the channel is
consistent with `closed`. -/
def DrainInv (s : State) : Prop :=
  CountInv s ∧ CloseInv s ∧ s.pending.length < 4294967296 ∧
    (s.closed = true ↔ s.pending = [])

/-- Once `closed`, the derived context is cancelled and `m.cancel()` has been
called. -/
def CancelInv (s : State) : Prop :=
  s.closed = true → s.cancelled = true ∧ 0 < s.cancelCalls

/-- The number of `Watch` calls of a run from `s` that were accepted, that is,
made while `closed` was false.  Steps after a step that is not enabled do not
count. -/
def acceptedCount (s : State) : List Step → Nat
  | [] => 0
  | st :: rest =>
    match step s st with
    | none => 0
    | some s1 =>
      (if st.isWatch = true ∧ s.closed = false then 1 else 0) + acceptedCount s1 rest

/-- The fields of the `Monitor` struct alone: `cnt`, `closed`, the channel
`done` and the cancel function, without the goroutines and the log. -/
structure Fields where
  cnt : Int
  closed : Bool
  cancelled : Bool
  doneCloses : Nat
  cancelCalls : Nat
  deriving DecidableEq, Repr

/-- The `Monitor` struct of a state. -/
def State.fields (s : State) : Fields :=
  { cnt := s.cnt, closed := s.closed, cancelled := s.cancelled, doneCloses := s.doneCloses,
    cancelCalls := s.cancelCalls }

/-- The state is the one `New` returned, or it is `closed` whenever no observer
waits. -/
def FreshOrSettled (s : State) : Prop :=
  s = New ∨ (s.pending = [] → s.closed = true)

/-- The greatest number of observers waiting at the same time in the course of
a run from `s` (the start and the end included).  Steps after a step that is
not enabled do not count. -/
def peakPending (s : State) : List Step → Nat
  | [] => s.pending.length
  | st :: rest =>
    match step s st with
    | none => s.pending.length
    | some s1 => max s.pending.length (peakPending s1 rest)

/-- The number of Cancel calls and service exits in a sequence of steps. -/
def otherCount (steps : List Step) : Nat :=
  steps.countP (fun st => !st.isWatch)

/-! ## General facts about runs -/

theorem run_nil (s : State) : run s [] = some s := rfl

theorem run_cons (s : State) (st : Step) (rest : List Step) :
    run s (st :: rest) = (step s st).bind (fun s1 => run s1 rest) := by
  simp only [run]
  cases step s st <;> rfl

theorem run_append (s : State) (a b : List Step) :
    run s (a ++ b) = (run s a).bind (fun s1 => run s1 b) := by
  induction a generalizing s with
  | nil => simp [run]
  | cons st rest ih =>
    simp only [List.cons_append, run_cons]
    cases step s st with
    | none => rfl
    | some s1 => simpa using ih s1

theorem run_concat (s : State) (a : List Step) (st : Step) :
    run s (a ++ [st]) = (run s a).bind (fun s1 => step s1 st) := by
  rw [run_append]
  congr 1
  funext s1
  rw [run_cons]
  cases step s1 st <;> rfl

/-- A property kept by every enabled step holds at the end of every run that
starts in a state where it holds. -/
theorem run_preserves (P : State → Prop)
    (hstep : ∀ s st s1, P s → step s st = some s1 → P s1)
    (steps : List Step) (s s1 : State) (h0 : P s) (h : run s steps = some s1) : P s1 := by
  induction steps generalizing s with
  | nil =>
    simp only [run, Option.some.injEq] at h
    exact h ▸ h0
  | cons st rest ih =>
    rw [run_cons] at h
    cases hs : step s st with
    | none => simp [hs] at h
    | some s2 =>
      rw [hs] at h
      exact ih s2 (hstep s st s2 h0 hs) h

/-! ## Effect of each step on `closed` and on the channel -/

theorem Watch_closed_doneCloses (s : State) (ctx : Nat) (name : String) (srv : Nat) :
    (Watch s ctx name srv).closed = s.closed ∧
      (Watch s ctx name srv).doneCloses = s.doneCloses ∧
      (Watch s ctx name srv).cancelled = s.cancelled ∧
      (Watch s ctx name srv).cancelCalls = s.cancelCalls := by
  unfold Watch
  split <;> simp

theorem Cancel_closes (s : State) :
    ((Cancel s).doneCloses = s.doneCloses ∧ (Cancel s).closed = s.closed ∧
        (s.cnt ≠ 0 ∨ s.closed = true)) ∨
      ((Cancel s).doneCloses = s.doneCloses + 1 ∧ (Cancel s).closed = true ∧
        s.closed = false ∧ s.cnt = 0) := by
  unfold Cancel
  by_cases h : s.cnt = 0 ∧ s.closed = false
  · right
    simp [h]
  · left
    simp only [h, if_false, true_and]
    by_cases hc : s.cnt = 0
    · right
      cases hcl : s.closed
      · exact absurd ⟨hc, hcl⟩ h
      · rfl
    · exact Or.inl hc

theorem observerBody_closes (s : State) (o : Observer) :
    ((observerBody s o).doneCloses = s.doneCloses ∧ (observerBody s o).closed = s.closed) ∨
      ((observerBody s o).doneCloses = s.doneCloses + 1 ∧ (observerBody s o).closed = true ∧
        s.closed = false ∧ (observerBody s o).cnt = 0) := by
  unfold observerBody
  by_cases h : wrapInt32 (s.cnt - 1) = 0 ∧ s.closed = false
  · right
    simp [h]
  · left
    simp [h]

theorem serviceExit_eq (s s1 : State) (i : Nat) (h : serviceExit s i = some s1) :
    ∃ o, s.pending[i]? = some o ∧
      s1 = observerBody { s with pending := s.pending.eraseIdx i } o := by
  unfold serviceExit at h
  cases ho : s.pending[i]? with
  | none => simp [ho] at h
  | some o =>
    simp only [ho, Option.some.injEq] at h
    exact ⟨o, rfl, h.symm⟩

/-- Any enabled step leaves the channel alone, or closes it for the first time
and sets `closed`. -/
theorem step_closes (s s1 : State) (st : Step) (h : step s st = some s1) :
    (s1.doneCloses = s.doneCloses ∧ s1.closed = s.closed) ∨
      (s1.doneCloses = s.doneCloses + 1 ∧ s1.closed = true ∧ s.closed = false) := by
  cases st with
  | watch ctx name srv =>
    simp only [step, Option.some.injEq] at h
    subst h
    exact Or.inl ⟨(Watch_closed_doneCloses s ctx name srv).2.1,
      (Watch_closed_doneCloses s ctx name srv).1⟩
  | exit i =>
    obtain ⟨o, -, rfl⟩ := serviceExit_eq s s1 i h
    rcases observerBody_closes { s with pending := s.pending.eraseIdx i } o with h1 | h1
    · exact Or.inl h1
    · exact Or.inr ⟨h1.1, h1.2.1, h1.2.2.1⟩
  | cancel =>
    simp only [step, Option.some.injEq] at h
    subst h
    rcases Cancel_closes s with h1 | h1
    · exact Or.inl ⟨h1.1, h1.2.1⟩
    · exact Or.inr ⟨h1.1, h1.2.1, h1.2.2.1⟩

theorem CloseInv_New : CloseInv New := by
  simp [CloseInv, New]

theorem CloseInv_step (s : State) (st : Step) (s1 : State) (hs : CloseInv s)
    (h : step s st = some s1) : CloseInv s1 := by
  obtain ⟨hle, hiff⟩ := hs
  rcases step_closes s s1 st h with ⟨hd, hc⟩ | ⟨hd, hc, hc0⟩
  · exact ⟨hd ▸ hle, by rw [hc, hd]; exact hiff⟩
  · have h0 : s.doneCloses = 0 := by
      have hne : ¬ s.doneCloses = 1 := fun h1 => by
        have := hiff.2 h1
        rw [hc0] at this
        exact Bool.noConfusion this
      omega
    exact ⟨by omega, by simp [hc, hd, h0]⟩

/-- C1: along every finite sequence of Watch, service-exit and Cancel steps from
`New`, `close(m.done)` has been executed at most once, `closed` is true exactly
when the channel has been closed once, and a further step that closes the
channel can only start from a state in which it is still open, so the second
close (the panic) does not happen. -/
theorem C1_done_closed_at_most_once (steps : List Step) (s : State)
    (h : run New steps = some s) :
    s.doneCloses ≤ 1 ∧ (s.closed = true ↔ s.doneCloses = 1) ∧
      ∀ st s1, step s st = some s1 →
        s1.doneCloses ≤ 1 ∧ (s1.doneCloses ≠ s.doneCloses →
          s.closed = false ∧ s.doneCloses = 0 ∧ s1.doneCloses = 1) := by
  have hinv : CloseInv s := run_preserves CloseInv CloseInv_step steps New s CloseInv_New h
  refine ⟨hinv.1, hinv.2, ?_⟩
  intro st s1 hst
  have hinv1 : CloseInv s1 := CloseInv_step s st s1 hinv hst
  refine ⟨hinv1.1, ?_⟩
  intro hne
  rcases step_closes s s1 st hst with ⟨hd, -⟩ | ⟨hd, -, hc0⟩
  · exact absurd hd hne
  · have := hinv1.1
    exact ⟨hc0, by omega, by omega⟩

theorem C1_done_closed_at_most_once_witness :
    run New [.watch 0 "A" 1, .watch 0 "B" 2, .cancel, .exit 1, .exit 0, .cancel]
        = some { cnt := 0, closed := true, cancelled := true, doneCloses := 1, pending := [],
                 log := ["B exited", "A exited"], cancelCalls := 4 } ∧
      (1 ≤ 1 ∧ ((true : Bool) = true ↔ 1 = 1)) := by
  have h : run New [.watch 0 "A" 1, .watch 0 "B" 2, .cancel, .exit 1, .exit 0, .cancel]
        = some { cnt := 0, closed := true, cancelled := true, doneCloses := 1, pending := [],
                 log := ["B exited", "A exited"], cancelCalls := 4 } := by decide
  have h1 := C1_done_closed_at_most_once _ _ h
  exact ⟨h, h1.1, h1.2.1⟩

/-! ## The counter and the waiting observers -/

theorem wrapInt32_add_left (x y : Int) : wrapInt32 (wrapInt32 x + y) = wrapInt32 (x + y) := by
  unfold wrapInt32
  omega

theorem wrapInt32_of_lt (n : Nat) (h : n < 4294967296) (h0 : wrapInt32 (n : Int) = 0) :
    n = 0 := by
  unfold wrapInt32 at h0
  omega

theorem wrapInt32_pred_of_lt (n : Nat) (hpos : 0 < n) (h : n < 4294967296)
    (h0 : wrapInt32 (wrapInt32 (n : Int) - 1) = 0) : n = 1 := by
  unfold wrapInt32 at h0
  omega

theorem CountInv_New : CountInv New := by
  simp [CountInv, New, wrapInt32]

theorem pending_pos_of_getElem (l : List Observer) (i : Nat) (o : Observer)
    (h : l[i]? = some o) : i < l.length := by
  by_contra hlt
  rw [List.getElem?_eq_none (Nat.le_of_not_lt hlt)] at h
  exact Option.noConfusion h

theorem observerBody_cnt_pending (s : State) (o : Observer) :
    (observerBody s o).cnt = wrapInt32 (s.cnt - 1) ∧ (observerBody s o).pending = s.pending ∧
      (observerBody s o).cancelled = true ∧
      (observerBody s o).log = s.log ++ [o.name ++ " exited"] ∧
      (observerBody s o).cancelCalls = s.cancelCalls + 1 := by
  by_cases h : wrapInt32 (s.cnt - 1) = 0 ∧ s.closed = false <;> simp [observerBody, h]

theorem Cancel_cnt_pending (s : State) :
    (Cancel s).cnt = s.cnt ∧ (Cancel s).pending = s.pending ∧ (Cancel s).cancelled = true ∧
      (Cancel s).log = s.log ∧ (Cancel s).cancelCalls = s.cancelCalls + 1 := by
  unfold Cancel
  split <;> simp

theorem CountInv_step (s : State) (st : Step) (s1 : State) (hs : CountInv s)
    (h : step s st = some s1) : CountInv s1 := by
  unfold CountInv at hs ⊢
  cases st with
  | watch ctx name srv =>
    simp only [step, Option.some.injEq] at h
    subst h
    unfold Watch
    split
    · exact hs
    · simp only [List.length_append, List.length_singleton, Nat.cast_add, Nat.cast_one]
      rw [hs, wrapInt32_add_left]
  | exit i =>
    obtain ⟨o, ho, rfl⟩ := serviceExit_eq s s1 i h
    have hlt := pending_pos_of_getElem _ _ _ ho
    obtain ⟨hc, hp, -⟩ := observerBody_cnt_pending { s with pending := s.pending.eraseIdx i } o
    rw [hc, hp]
    simp only [List.length_eraseIdx, hlt, if_true]
    rw [hs]
    unfold wrapInt32
    omega
  | cancel =>
    simp only [step, Option.some.injEq] at h
    subst h
    rw [(Cancel_cnt_pending s).1, (Cancel_cnt_pending s).2.1]
    exact hs

theorem watchCount_cons (st : Step) (rest : List Step) :
    watchCount (st :: rest) = watchCount rest + (if st.isWatch = true then 1 else 0) := by
  simp [watchCount, List.countP_cons]

theorem exitCount_cons (st : Step) (rest : List Step) :
    exitCount (st :: rest) = exitCount rest + (if st.isExit = true then 1 else 0) := by
  simp [exitCount, List.countP_cons]

/-- A step adds at most one waiting observer, and only a `Watch` adds one. -/
theorem step_pending_length (s : State) (st : Step) (s1 : State) (h : step s st = some s1) :
    s1.pending.length ≤ s.pending.length + (if st.isWatch = true then 1 else 0) := by
  cases st with
  | watch ctx name srv =>
    simp only [step, Option.some.injEq] at h
    subst h
    unfold Watch
    split <;> simp [Step.isWatch]
  | exit i =>
    obtain ⟨o, ho, rfl⟩ := serviceExit_eq s s1 i h
    rw [(observerBody_cnt_pending _ o).2.1]
    simp only [List.length_eraseIdx]
    split <;> omega
  | cancel =>
    simp only [step, Option.some.injEq] at h
    subst h
    rw [(Cancel_cnt_pending s).2.1]
    omega

/-- While fewer than `2^32` observers wait, a step that sets `closed` leaves no
observer waiting. -/
theorem ClosedIdle_step (s : State) (st : Step) (s1 : State) (hs : CountInv s)
    (hi : ClosedIdle s) (hb : s.pending.length < 4294967296) (h : step s st = some s1) :
    ClosedIdle s1 := by
  unfold ClosedIdle at hi ⊢
  unfold CountInv at hs
  cases st with
  | watch ctx name srv =>
    simp only [step, Option.some.injEq] at h
    subst h
    unfold Watch
    cases hc : s.closed with
    | true => simpa [hc] using hi hc
    | false => simp [hc]
  | exit i =>
    obtain ⟨o, ho, rfl⟩ := serviceExit_eq s s1 i h
    have hlt := pending_pos_of_getElem _ _ _ ho
    intro hcl
    rw [(observerBody_cnt_pending _ o).2.1]
    rcases observerBody_closes { s with pending := s.pending.eraseIdx i } o with h1 | h1
    · have hsc : s.closed = true := by rw [← hcl]; exact h1.2.symm
      rw [hi hsc] at hlt
      simp at hlt
    · have h0 := h1.2.2.2
      rw [(observerBody_cnt_pending _ o).1] at h0
      simp only at h0
      rw [hs] at h0
      apply List.eq_nil_of_length_eq_zero
      simp only [List.length_eraseIdx, hlt, if_true]
      unfold wrapInt32 at h0
      omega
  | cancel =>
    simp only [step, Option.some.injEq] at h
    subst h
    intro hcl
    rw [(Cancel_cnt_pending s).2.1]
    rcases Cancel_closes s with h1 | h1
    · exact hi (by rw [← hcl]; exact h1.2.1.symm)
    · have h0 := h1.2.2.2
      rw [hs] at h0
      exact List.eq_nil_of_length_eq_zero (wrapInt32_of_lt _ hb h0)

/-- Runs with a bounded number of `Watch` calls keep the counter in step with
the waiting observers and never complete while one of them waits. -/
theorem run_bounded (steps : List Step) (s s1 : State) (h : run s steps = some s1)
    (hs : CountInv s) (hi : ClosedIdle s)
    (hb : s.pending.length + watchCount steps < 4294967296) :
    CountInv s1 ∧ ClosedIdle s1 ∧ s1.pending.length ≤ s.pending.length + watchCount steps := by
  induction steps generalizing s with
  | nil =>
    simp only [run, Option.some.injEq] at h
    subst h
    exact ⟨hs, hi, by omega⟩
  | cons st rest ih =>
    rw [run_cons] at h
    rw [watchCount_cons] at hb ⊢
    cases hst : step s st with
    | none => simp [hst] at h
    | some s2 =>
      rw [hst] at h
      have hlen := step_pending_length s st s2 hst
      have h2 := ih s2 h (CountInv_step s st s2 hs hst)
        (ClosedIdle_step s st s2 hs hi (by omega) hst) (by omega)
      exact ⟨h2.1, h2.2.1, by omega⟩

theorem peakPending_ge (steps : List Step) (s : State) :
    s.pending.length ≤ peakPending s steps := by
  cases steps with
  | nil => exact Nat.le_refl _
  | cons st rest =>
    simp only [peakPending]
    cases step s st with
    | none => exact Nat.le_refl _
    | some s1 => exact Nat.le_max_left _ _

/-- Runs during which fewer than `2^32` observers wait at any time keep the
counter in step with the waiting observers and never complete while one of
them waits. -/
theorem run_peak (steps : List Step) (s s1 : State) (h : run s steps = some s1)
    (hs : CountInv s) (hi : ClosedIdle s) (hb : peakPending s steps < 4294967296) :
    CountInv s1 ∧ ClosedIdle s1 ∧ s1.pending.length < 4294967296 := by
  induction steps generalizing s with
  | nil =>
    simp only [run, Option.some.injEq] at h
    subst h
    exact ⟨hs, hi, hb⟩
  | cons st rest ih =>
    rw [run_cons] at h
    cases hst : step s st with
    | none => simp [hst] at h
    | some s2 =>
      rw [hst] at h
      simp only [peakPending, hst] at hb
      have hb1 : s.pending.length < 4294967296 := lt_of_le_of_lt (Nat.le_max_left _ _) hb
      have hb2 : peakPending s2 rest < 4294967296 := lt_of_le_of_lt (Nat.le_max_right _ _) hb
      exact ih s2 h (CountInv_step s st s2 hs hst) (ClosedIdle_step s st s2 hs hi hb1 hst) hb2

/-! ## Many registrations -/

theorem watched_zero (s : State) (o : Observer) (hr : s.cnt = wrapInt32 s.cnt) :
    watched s o 0 = s := by
  cases s
  simp only [watched, Nat.cast_zero, add_zero, List.replicate_zero, List.append_nil] at hr ⊢
  simp only [State.mk.injEq, and_true, true_and]
  exact hr.symm

theorem Watch_watched (s : State) (ctx : Nat) (o : Observer) (n : Nat) (hc : s.closed = false) :
    Watch (watched s o n) ctx o.name o.srv = watched s o (n + 1) := by
  simp only [Watch, watched, hc, Bool.false_eq_true, if_false, State.mk.injEq, true_and,
    and_true, List.append_assoc]
  constructor
  · rw [wrapInt32_add_left]
    congr 1
    push_cast
    ring
  · rw [← List.replicate_succ', List.replicate_succ]

/-- The same service is registered `n` times on a monitor that is not closed. -/
theorem run_replicate_watch (n : Nat) (s : State) (ctx : Nat) (o : Observer)
    (hc : s.closed = false) (hr : s.cnt = wrapInt32 s.cnt) :
    run s (List.replicate n (Step.watch ctx o.name o.srv)) = some (watched s o n) := by
  induction n with
  | zero => simp [run, watched_zero s o hr]
  | succ k ih =>
    rw [List.replicate_succ', run_append, ih]
    simp only [Option.some_bind, run, step]
    rw [Watch_watched s ctx o k hc]

theorem isDone_iff_closed (s : State) (hs : CloseInv s) : isDone s = true ↔ s.closed = true := by
  unfold CloseInv at hs
  unfold isDone
  rw [hs.2, decide_eq_true_iff]
  omega

theorem Cancel_watched (o : Observer) (n : Nat) (h0 : wrapInt32 (n : Int) = 0) :
    (Cancel (watched New o n)).closed = true ∧ (Cancel (watched New o n)).pending.length = n := by
  have hc : (watched New o n).cnt = 0 := by
    simp only [watched, New, zero_add]
    exact h0
  have hcl : (watched New o n).closed = false := rfl
  rcases Cancel_closes (watched New o n) with h1 | h1
  · rcases h1.2.2 with h2 | h2
    · exact absurd hc h2
    · rw [hcl] at h2
      exact Bool.noConfusion h2
  · refine ⟨h1.2.1, ?_⟩
    rw [(Cancel_cnt_pending _).2.1]
    simp [watched, New]

/-- C2 (on runs during which fewer than `2^32` observers wait at any time): in
every state reached from `New`, if the completion signal is set (`closed`,
equivalently `done` is closed) then the live count is 0 and no observer is
still waiting for its service. -/
theorem C2_closed_implies_idle (steps : List Step) (s : State)
    (h : run New steps = some s) (hb : peakPending New steps < 4294967296)
    (hc : s.closed = true ∨ isDone s = true) :
    s.cnt = 0 ∧ s.pending = [] := by
  have hinv : CloseInv s := run_preserves CloseInv CloseInv_step steps New s CloseInv_New h
  have hcl : s.closed = true := by
    rcases hc with hc | hc
    · exact hc
    · exact (isDone_iff_closed s hinv).1 hc
  have hrun := run_peak steps New s h CountInv_New (fun _ => rfl) hb
  have hp : s.pending = [] := hrun.2.1 hcl
  refine ⟨?_, hp⟩
  have hcnt := hrun.1
  unfold CountInv at hcnt
  rw [hcnt, hp]
  rfl

theorem C2_closed_implies_idle_witness :
    run New [.watch 0 "A" 1, .cancel, .exit 0, .watch 0 "B" 2, .watch 0 "C" 3] =
        some { cnt := 0, closed := true, cancelled := true, doneCloses := 1, pending := [],
               log := ["A exited"], cancelCalls := 2 } ∧
      peakPending New [.watch 0 "A" 1, .cancel, .exit 0, .watch 0 "B" 2, .watch 0 "C" 3] = 1 ∧
      ((0 : Int) = 0 ∧ ([] : List Observer) = []) :=
  ⟨by decide, by decide,
   C2_closed_implies_idle [.watch 0 "A" 1, .cancel, .exit 0, .watch 0 "B" 2, .watch 0 "C" 3]
     { cnt := 0, closed := true, cancelled := true, doneCloses := 1, pending := [],
       log := ["A exited"], cancelCalls := 2 } (by decide) (by decide) (Or.inl rfl)⟩

/-- C2 as stated fails: after `2^32` accepted Watch calls the `int32` counter is
0 again, so a Cancel closes `done` while all `2^32` observers are still waiting. -/
theorem C2_counterexample :
    ∃ steps s, run New steps = some s ∧ s.closed = true ∧ isDone s = true ∧
      s.pending.length = 4294967296 ∧ ¬ (s.cnt = 0 ∧ s.pending = []) := by
  have h0 : wrapInt32 ((4294967296 : Nat) : Int) = 0 := by decide
  have hrun := run_replicate_watch 4294967296 New 0 ⟨"A", 1⟩ rfl (by decide)
  have hc := Cancel_watched ⟨"A", 1⟩ 4294967296 h0
  refine ⟨List.replicate 4294967296 (Step.watch 0 "A" 1) ++ [Step.cancel],
    Cancel (watched New ⟨"A", 1⟩ 4294967296), ?_, hc.1, ?_, hc.2, ?_⟩
  · rw [run_concat, hrun]
    rfl
  · have hinv : CloseInv (Cancel (watched New ⟨"A", 1⟩ 4294967296)) :=
      CloseInv_step _ Step.cancel _
        (run_preserves CloseInv CloseInv_step _ New _ CloseInv_New hrun) rfl
    exact (isDone_iff_closed _ hinv).2 hc.1
  · intro hneg
    have hlen := hc.2
    rw [hneg.2] at hlen
    exact absurd hlen (by decide)

/-! ## Single calls -/

/-- C3: on every state with live count 0 and `closed = false` (the state returned
by `New` among them) one Cancel call, with no service-exit step, sets `closed`,
closes `done` so that the completion signal is set, and invokes the cancellation
trigger once. -/
theorem C3_cancel_without_services (s : State) (h0 : s.cnt = 0) (hc : s.closed = false) :
    run s [Step.cancel] = some (Cancel s) ∧ (Cancel s).closed = true ∧
      (Cancel s).doneCloses = s.doneCloses + 1 ∧ isDone (Cancel s) = true ∧
      (Cancel s).cancelled = true ∧ (Cancel s).cancelCalls = s.cancelCalls + 1 := by
  refine ⟨rfl, ?_⟩
  rcases Cancel_closes s with h1 | h1
  · rcases h1.2.2 with h2 | h2
    · exact absurd h0 h2
    · rw [hc] at h2
      exact Bool.noConfusion h2
  · refine ⟨h1.2.1, h1.1, ?_, (Cancel_cnt_pending s).2.2.1, (Cancel_cnt_pending s).2.2.2.2⟩
    unfold isDone
    rw [h1.1]
    simp

theorem C3_cancel_without_services_witness :
    run New [Step.cancel] = some (Cancel New) ∧ (Cancel New).closed = true ∧
      (Cancel New).doneCloses = New.doneCloses + 1 ∧ isDone (Cancel New) = true ∧
      (Cancel New).cancelled = true ∧ (Cancel New).cancelCalls = New.cancelCalls + 1 :=
  C3_cancel_without_services New rfl rfl

/-- C4: on every state with `closed = true`, Watch with any scope, name and
service returns the state unchanged: same live count, no new observer, `closed`
still true, `done` still closed and not closed again, cancellation trigger not
invoked (`cancelCalls` as before); the call is an enabled step. -/
theorem C4_watch_after_completion (s : State) (ctx : Nat) (name : String) (srv : Nat)
    (hc : s.closed = true) :
    Watch s ctx name srv = s ∧ run s [Step.watch ctx name srv] = some s ∧
      (Watch s ctx name srv).cancelCalls = s.cancelCalls ∧
      (Watch s ctx name srv).doneCloses = s.doneCloses := by
  have h : Watch s ctx name srv = s := by simp [Watch, hc]
  exact ⟨h, by simp [run, step, h], by rw [h], by rw [h]⟩

theorem C4_watch_after_completion_witness :
    Watch (Cancel New) 0 "D" 4 = Cancel New ∧
      run (Cancel New) [Step.watch 0 "D" 4] = some (Cancel New) ∧
      (Watch (Cancel New) 0 "D" 4).cancelCalls = (Cancel New).cancelCalls ∧
      (Watch (Cancel New) 0 "D" 4).doneCloses = (Cancel New).doneCloses :=
  C4_watch_after_completion (Cancel New) 0 "D" 4 rfl

/-- C6: Cancel is idempotent on every state, reachable or not, before or after
completion: after a second Cancel the monitor is as after the first one (same
live count, `closed`, `cancelled`, `done`, observers and log), the second call
does not close `done`, and all it does is call the cancel function of the
already cancelled context once more. -/
theorem C6_cancel_idempotent (s : State) :
    Cancel (Cancel s) = { Cancel s with cancelCalls := (Cancel s).cancelCalls + 1 } ∧
      (Cancel (Cancel s)).cnt = (Cancel s).cnt ∧
      (Cancel (Cancel s)).closed = (Cancel s).closed ∧
      (Cancel (Cancel s)).cancelled = (Cancel s).cancelled ∧
      (Cancel s).cancelled = true ∧
      (Cancel (Cancel s)).doneCloses = (Cancel s).doneCloses ∧
      (Cancel (Cancel s)).pending = (Cancel s).pending ∧
      (Cancel (Cancel s)).log = (Cancel s).log := by
  have h : Cancel (Cancel s) = { Cancel s with cancelCalls := (Cancel s).cancelCalls + 1 } := by
    cases s with
    | mk cnt closed cancelled doneCloses pending log cancelCalls =>
      by_cases h1 : cnt = 0 ∧ closed = false
      · simp [Cancel, h1]
      · simp [Cancel, h1]
  exact ⟨h, by rw [h], by rw [h], by rw [h], (Cancel_cnt_pending s).2.2.1, by rw [h],
    by rw [h], by rw [h]⟩

/-- C9 (last clause for a number of registered services that is not a multiple
of `2^32`): Cancel invokes the cancellation trigger, once, on every state; when
the live count is greater than 0, or `closed` is already true, it changes
nothing else: live count, `closed`, `done`, waiting observers and log are as
before; and in a state reached from `New` in which the number of services still
registered is not a multiple of `2^32` (between 1 and `2^32 - 1`, say), Cancel
does not close `done`. -/
theorem C9_cancel_frame (s : State) :
    (Cancel s).cancelled = true ∧ (Cancel s).cancelCalls = s.cancelCalls + 1 ∧
      (0 < s.cnt ∨ s.closed = true →
        Cancel s = { s with cancelled := true, cancelCalls := s.cancelCalls + 1 } ∧
          (Cancel s).cnt = s.cnt ∧
          (Cancel s).closed = s.closed ∧ (Cancel s).doneCloses = s.doneCloses ∧
          isDone (Cancel s) = isDone s) ∧
      (∀ steps : List Step, run New steps = some s → s.pending.length % 4294967296 ≠ 0 →
        Cancel s = { s with cancelled := true, cancelCalls := s.cancelCalls + 1 } ∧
          (Cancel s).cnt = s.cnt ∧
          (Cancel s).closed = s.closed ∧ (Cancel s).doneCloses = s.doneCloses ∧
          isDone (Cancel s) = isDone s) := by
  have key : ¬ (s.cnt = 0 ∧ s.closed = false) →
      Cancel s = { s with cancelled := true, cancelCalls := s.cancelCalls + 1 } ∧
        (Cancel s).cnt = s.cnt ∧
        (Cancel s).closed = s.closed ∧ (Cancel s).doneCloses = s.doneCloses ∧
        isDone (Cancel s) = isDone s := by
    intro hn
    have he : Cancel s = { s with cancelled := true, cancelCalls := s.cancelCalls + 1 } := by
      simp [Cancel, hn]
    exact ⟨he, by rw [he], by rw [he], by rw [he], by rw [he]; rfl⟩
  refine ⟨(Cancel_cnt_pending s).2.2.1, (Cancel_cnt_pending s).2.2.2.2, ?_, ?_⟩
  · intro h
    apply key
    rintro ⟨h0, hc⟩
    rcases h with h | h
    · omega
    · rw [hc] at h
      exact Bool.noConfusion h
  · intro steps hrun hreg
    apply key
    rintro ⟨h0, -⟩
    have hcnt : CountInv s := run_preserves CountInv CountInv_step steps New s CountInv_New hrun
    unfold CountInv at hcnt
    rw [hcnt] at h0
    unfold wrapInt32 at h0
    omega

theorem C9_cancel_frame_witness :
    (Cancel (Watch New 0 "Test" 1)).cancelled = true ∧
      Cancel (Watch New 0 "Test" 1) =
        { Watch New 0 "Test" 1 with cancelled := true, cancelCalls := 1 } ∧
      isDone (Cancel (Watch New 0 "Test" 1)) = false ∧
      run New [.watch 0 "Test" 1] = some (Watch New 0 "Test" 1) ∧
      (Cancel (Watch New 0 "Test" 1)).doneCloses = (Watch New 0 "Test" 1).doneCloses :=
  ⟨(C9_cancel_frame (Watch New 0 "Test" 1)).1,
   ((C9_cancel_frame (Watch New 0 "Test" 1)).2.2.1 (Or.inl (by decide))).1,
   by decide, rfl,
   ((C9_cancel_frame (Watch New 0 "Test" 1)).2.2.2 [.watch 0 "Test" 1] rfl
      (by decide)).2.2.2.1⟩

/-- C9 as stated fails in its last clause: after `2^32` Watch calls the `int32`
counter is 0 with `closed = false`, so Cancel closes `done` although `2^32`
services are still registered. -/
theorem C9_counterexample :
    ∃ (steps : List Step) (s : State), run New steps = some s ∧
      s.pending.length = 4294967296 ∧ s.closed = false ∧ isDone s = false ∧
      (Cancel s).closed = true ∧ isDone (Cancel s) = true ∧
      (Cancel s).doneCloses = s.doneCloses + 1 := by
  have h0 : wrapInt32 ((4294967296 : Nat) : Int) = 0 := by decide
  have hrun := run_replicate_watch 4294967296 New 0 ⟨"A", 1⟩ rfl (by decide)
  have hc := Cancel_watched ⟨"A", 1⟩ 4294967296 h0
  have hlen : (watched New ⟨"A", 1⟩ 4294967296).pending.length = 4294967296 := by
    rw [← (Cancel_cnt_pending _).2.1]
    exact hc.2
  have hopen : (watched New ⟨"A", 1⟩ 4294967296).closed = false := rfl
  have hinv : CloseInv (watched New ⟨"A", 1⟩ 4294967296) :=
    run_preserves CloseInv CloseInv_step _ New _ CloseInv_New hrun
  have hinv1 : CloseInv (Cancel (watched New ⟨"A", 1⟩ 4294967296)) :=
    CloseInv_step _ Step.cancel _ hinv rfl
  have hd : isDone (watched New ⟨"A", 1⟩ 4294967296) = false := by
    cases hdone : isDone (watched New ⟨"A", 1⟩ 4294967296) with
    | false => rfl
    | true =>
      have := (isDone_iff_closed _ hinv).1 hdone
      rw [hopen] at this
      exact Bool.noConfusion this
  refine ⟨List.replicate 4294967296 (Step.watch 0 "A" 1), watched New ⟨"A", 1⟩ 4294967296,
    hrun, hlen, hopen, hd, hc.1, (isDone_iff_closed _ hinv1).2 hc.1, ?_⟩
  rcases Cancel_closes (watched New ⟨"A", 1⟩ 4294967296) with h1 | h1
  · have := hc.1
    rw [h1.2.1, hopen] at this
    exact Bool.noConfusion this
  · exact h1.1

/-- C10: `closed` is monotone: from every state with `closed = true`, every
enabled step (Watch with any arguments, Cancel, a service exit) ends in a state
with `closed = true`, does not touch `done`, and so leaves a set completion
signal set. -/
theorem C10_closed_monotone (s : State) (st : Step) (s1 : State) (hc : s.closed = true)
    (h : step s st = some s1) :
    s1.closed = true ∧ s1.doneCloses = s.doneCloses ∧ (isDone s = true → isDone s1 = true) := by
  rcases step_closes s s1 st h with ⟨hd, hcl⟩ | ⟨-, -, hc0⟩
  · refine ⟨by rw [hcl, hc], hd, ?_⟩
    unfold isDone
    rw [hd]
    exact id
  · rw [hc] at hc0
    exact Bool.noConfusion hc0

theorem C10_closed_monotone_witness :
    step { cnt := 0, closed := true, cancelled := true, doneCloses := 1, pending := [],
           log := [], cancelCalls := 1 } (Step.watch 0 "E" 5) =
        some { cnt := 0, closed := true, cancelled := true, doneCloses := 1, pending := [],
               log := [], cancelCalls := 1 } ∧
      ((true : Bool) = true ∧ 1 = 1 ∧ ((true : Bool) = true → (true : Bool) = true)) :=
  ⟨by decide,
   C10_closed_monotone
     { cnt := 0, closed := true, cancelled := true, doneCloses := 1, pending := [], log := [],
       cancelCalls := 1 }
     (Step.watch 0 "E" 5)
     { cnt := 0, closed := true, cancelled := true, doneCloses := 1, pending := [], log := [],
       cancelCalls := 1 }
     rfl (by decide)⟩

/-! ## Registrations followed by exits -/

/-- A step that sets `closed` or closes `done` is a Cancel or a service exit, and
it ends with live count 0. -/
theorem step_fires (s : State) (st : Step) (s1 : State) (h : step s st = some s1)
    (hch : s1.closed ≠ s.closed ∨ s1.doneCloses ≠ s.doneCloses) :
    s1.cnt = 0 ∧ (st = Step.cancel ∨ ∃ i, st = Step.exit i) := by
  cases st with
  | watch ctx name srv =>
    simp only [step, Option.some.injEq] at h
    subst h
    have hw := Watch_closed_doneCloses s ctx name srv
    rcases hch with hch | hch
    · exact absurd hw.1 hch
    · exact absurd hw.2.1 hch
  | exit i =>
    obtain ⟨o, -, rfl⟩ := serviceExit_eq s s1 i h
    rcases observerBody_closes { s with pending := s.pending.eraseIdx i } o with h1 | h1
    · rcases hch with hch | hch
      · exact absurd h1.2 hch
      · exact absurd h1.1 hch
    · exact ⟨h1.2.2.2, Or.inr ⟨i, rfl⟩⟩
  | cancel =>
    simp only [step, Option.some.injEq] at h
    subst h
    rcases Cancel_closes s with h1 | h1
    · rcases hch with hch | hch
      · exact absurd h1.2.1 hch
      · exact absurd h1.1 hch
    · exact ⟨by rw [(Cancel_cnt_pending s).1]; exact h1.2.2.2, Or.inl rfl⟩

/-- Watch calls alone, on a monitor that is not closed, are all accepted and
leave it not closed. -/
theorem run_watches (ws : List Step) (s : State) (hw : ∀ st ∈ ws, st.isWatch = true)
    (hc : s.closed = false) :
    ∃ s1, run s ws = some s1 ∧ s1.closed = false ∧ s1.doneCloses = s.doneCloses ∧
      s1.pending.length = s.pending.length + ws.length := by
  induction ws generalizing s with
  | nil => exact ⟨s, rfl, hc, rfl, rfl⟩
  | cons st rest ih =>
    cases st with
    | watch ctx name srv =>
      have hcw : (Watch s ctx name srv).closed = false := by
        rw [(Watch_closed_doneCloses s ctx name srv).1, hc]
      obtain ⟨s1, hrun, hcl, hd, hlen⟩ :=
        ih (Watch s ctx name srv) (fun st hst => hw st (List.mem_cons_of_mem _ hst)) hcw
      refine ⟨s1, ?_, hcl, ?_, ?_⟩
      · rw [run_cons]
        exact hrun
      · rw [hd, (Watch_closed_doneCloses s ctx name srv).2.1]
      · have hwl : (Watch s ctx name srv).pending.length = s.pending.length + 1 := by
          simp [Watch, hc]
        rw [hlen, hwl, List.length_cons]
        omega
    | exit i => exact absurd (hw (Step.exit i) (List.mem_cons_self _ _)) (by simp [Step.isWatch])
    | cancel => exact absurd (hw Step.cancel (List.mem_cons_self _ _)) (by simp [Step.isWatch])

theorem DrainInv_step (s : State) (st : Step) (s1 : State) (hs : DrainInv s)
    (hnw : st.isWatch = false) (h : step s st = some s1) :
    DrainInv s1 ∧
      s1.pending.length + (if st.isExit = true then 1 else 0) = s.pending.length := by
  obtain ⟨hcnt, hcl, hb, hiff⟩ := hs
  have hcnt1 := CountInv_step s st s1 hcnt h
  have hcl1 := CloseInv_step s st s1 hcl h
  cases st with
  | watch ctx name srv => simp [Step.isWatch] at hnw
  | exit i =>
    obtain ⟨o, ho, rfl⟩ := serviceExit_eq s s1 i h
    have hlt := pending_pos_of_getElem _ _ _ ho
    have hp := (observerBody_cnt_pending { s with pending := s.pending.eraseIdx i } o).2.1
    have hlen : (observerBody { s with pending := s.pending.eraseIdx i } o).pending.length + 1
        = s.pending.length := by
      rw [hp]
      simp only [List.length_eraseIdx, hlt, if_true]
      omega
    have hnc : s.closed = false := by
      cases hsc : s.closed with
      | false => rfl
      | true =>
        rw [hiff.1 hsc] at hlt
        simp at hlt
    refine ⟨⟨hcnt1, hcl1, by omega, ?_⟩, by simpa [Step.isExit] using hlen⟩
    have hc1 := (observerBody_cnt_pending { s with pending := s.pending.eraseIdx i } o).1
    simp only at hc1
    have hcnt0 : s.cnt = wrapInt32 (s.pending.length : Int) := hcnt
    constructor
    · intro hclosed
      rcases observerBody_closes { s with pending := s.pending.eraseIdx i } o with h1 | h1
      · rw [h1.2] at hclosed
        simp only at hclosed
        rw [hnc] at hclosed
        exact Bool.noConfusion hclosed
      · have h0 := h1.2.2.2
        rw [hc1, hcnt0] at h0
        have hone := wrapInt32_pred_of_lt _ (by omega) hb h0
        apply List.eq_nil_of_length_eq_zero
        omega
    · intro hnil
      have hl1 : s.pending.length = 1 := by
        rw [← hlen, hnil]
        rfl
      have hz : wrapInt32 (s.cnt - 1) = 0 := by
        rw [hcnt0, hl1]
        decide
      simp [observerBody, hz, hnc]
  | cancel =>
    simp only [step, Option.some.injEq] at h
    subst h
    have hp := (Cancel_cnt_pending s).2.1
    refine ⟨⟨hcnt1, hcl1, by rw [hp]; exact hb, ?_⟩, by simp [Step.isExit, hp]⟩
    rw [hp]
    rcases Cancel_closes s with h1 | h1
    · rw [h1.2.1]
      exact hiff
    · have h0 := h1.2.2.2
      unfold CountInv at hcnt
      rw [hcnt] at h0
      have hnil := List.eq_nil_of_length_eq_zero (wrapInt32_of_lt _ hb h0)
      have hsc := hiff.2 hnil
      rw [h1.2.2.1] at hsc
      exact Bool.noConfusion hsc

theorem run_drain (rest : List Step) (s s1 : State) (hs : DrainInv s)
    (hnw : ∀ st ∈ rest, st.isWatch = false) (h : run s rest = some s1) :
    DrainInv s1 ∧ s1.pending.length + exitCount rest = s.pending.length := by
  induction rest generalizing s with
  | nil =>
    simp only [run, Option.some.injEq] at h
    subst h
    exact ⟨hs, by simp [exitCount]⟩
  | cons st rest ih =>
    rw [run_cons] at h
    cases hst : step s st with
    | none => simp [hst] at h
    | some s2 =>
      rw [hst] at h
      have h1 := DrainInv_step s st s2 hs (hnw st (List.mem_cons_self _ _)) hst
      have h2 := ih s2 h1.1 (fun st1 hst1 => hnw st1 (List.mem_cons_of_mem _ hst1)) h
      refine ⟨h2.1, ?_⟩
      rw [exitCount_cons]
      omega

theorem DrainInv_of_watches (s : State) (hcnt : CountInv s) (hcl : CloseInv s)
    (hc : s.closed = false) (hpos : 0 < s.pending.length) (hb : s.pending.length < 4294967296) :
    DrainInv s := by
  refine ⟨hcnt, hcl, hb, ?_⟩
  constructor
  · intro h
    rw [hc] at h
    exact Bool.noConfusion h
  · intro h
    rw [h] at hpos
    exact absurd hpos (by decide)

/-- C5 (for `1 ≤ n < 2^32`): from `New`, after `n` Watch calls, and then any
sequence of service exits and Cancel calls, the completion signal is unset as
long as fewer than `n` exits have run and is set once `n` exits have run; more
than `n` exits cannot run. -/
theorem C5_completion_after_last_exit (n : Nat) (ws rest : List Step) (s : State)
    (hn : 1 ≤ n) (hlt : n < 4294967296) (hlen : ws.length = n)
    (hws : ∀ st ∈ ws, st.isWatch = true) (hrest : ∀ st ∈ rest, st.isWatch = false)
    (h : run New (ws ++ rest) = some s) :
    exitCount rest ≤ n ∧
      (exitCount rest < n → s.closed = false ∧ isDone s = false) ∧
      (exitCount rest = n → s.closed = true ∧ isDone s = true) := by
  obtain ⟨s0, hrun0, hc0, -, hlen0⟩ := run_watches ws New hws rfl
  rw [run_append, hrun0] at h
  simp only [Option.some_bind] at h
  have hp0 : s0.pending.length = n := by
    rw [hlen0, hlen]
    simp [New]
  have hd0 : DrainInv s0 :=
    DrainInv_of_watches s0
      (run_preserves CountInv CountInv_step ws New s0 CountInv_New hrun0)
      (run_preserves CloseInv CloseInv_step ws New s0 CloseInv_New hrun0)
      hc0 (by omega) (by omega)
  obtain ⟨⟨-, hcl, -, hiff⟩, hcount⟩ := run_drain rest s0 s hd0 hrest h
  have hdone := isDone_iff_closed s hcl
  refine ⟨by omega, ?_, ?_⟩
  · intro hk
    have hne : s.pending ≠ [] := by
      intro hnil
      rw [hnil] at hcount
      simp only [List.length_nil] at hcount
      omega
    have hcf : s.closed = false := by
      cases hsc : s.closed with
      | false => rfl
      | true => exact absurd (hiff.1 hsc) hne
    refine ⟨hcf, ?_⟩
    cases hd : isDone s with
    | false => rfl
    | true =>
      rw [hdone.1 hd] at hcf
      exact Bool.noConfusion hcf
  · intro hk
    have hnil : s.pending = [] := List.eq_nil_of_length_eq_zero (by omega)
    exact ⟨hiff.2 hnil, hdone.2 (hiff.2 hnil)⟩

theorem C5_completion_after_last_exit_witness :
    run New ([.watch 0 "A" 1, .watch 0 "B" 2, .watch 0 "C" 3] ++ [.exit 1, .cancel, .exit 1]) =
        some { cnt := 1, closed := false, cancelled := true, doneCloses := 0,
               pending := [⟨"A", 1⟩], log := ["B exited", "C exited"], cancelCalls := 3 } ∧
      run New ([.watch 0 "A" 1, .watch 0 "B" 2, .watch 0 "C" 3] ++
          [.exit 1, .cancel, .exit 1, .exit 0]) =
        some { cnt := 0, closed := true, cancelled := true, doneCloses := 1,
               pending := [], log := ["B exited", "C exited", "A exited"], cancelCalls := 4 } ∧
      ((false : Bool) = false ∧ (false : Bool) = false) ∧
      ((true : Bool) = true ∧ (true : Bool) = true) :=
  ⟨by decide, by decide,
   (C5_completion_after_last_exit 3 [.watch 0 "A" 1, .watch 0 "B" 2, .watch 0 "C" 3]
      [.exit 1, .cancel, .exit 1]
      { cnt := 1, closed := false, cancelled := true, doneCloses := 0,
        pending := [⟨"A", 1⟩], log := ["B exited", "C exited"], cancelCalls := 3 }
      (by decide) (by decide) rfl (by decide) (by decide) (by decide)).2.1 (by decide),
   (C5_completion_after_last_exit 3 [.watch 0 "A" 1, .watch 0 "B" 2, .watch 0 "C" 3]
      [.exit 1, .cancel, .exit 1, .exit 0]
      { cnt := 0, closed := true, cancelled := true, doneCloses := 1,
        pending := [], log := ["B exited", "C exited", "A exited"], cancelCalls := 4 }
      (by decide) (by decide) rfl (by decide) (by decide) (by decide)).2.2 (by decide)⟩

theorem observerBody_fires (s : State) (o : Observer) (hz : wrapInt32 (s.cnt - 1) = 0)
    (hc : s.closed = false) :
    (observerBody s o).closed = true ∧ (observerBody s o).doneCloses = s.doneCloses + 1 := by
  simp [observerBody, hz, hc]

/-- The first of `n` observers of a freshly watched monitor exits. -/
theorem serviceExit_watched (o : Observer) (n : Nat) (hn : 0 < n) :
    ∃ s1, serviceExit (watched New o n) 0 = some s1 ∧
      s1.cnt = wrapInt32 (wrapInt32 (n : Int) - 1) ∧
      (wrapInt32 (wrapInt32 (n : Int) - 1) = 0 → s1.closed = true ∧ isDone s1 = true) := by
  have hget : (watched New o n).pending[0]? = some o := by
    simp [watched, New, hn]
  refine ⟨observerBody
    { watched New o n with pending := (watched New o n).pending.eraseIdx 0 } o, ?_, ?_, ?_⟩
  · unfold serviceExit
    rw [hget]
  · rw [(observerBody_cnt_pending _ o).1]
    simp [watched, New]
  · intro hz
    have hf := observerBody_fires
      { watched New o n with pending := (watched New o n).pending.eraseIdx 0 } o
      (by simpa [watched, New] using hz) rfl
    refine ⟨hf.1, ?_⟩
    unfold isDone
    rw [hf.2]
    simp

/-- C5 as stated fails for `n = 2^32 + 1`: after that many Watch calls the
`int32` counter is 1, so the first service exit brings it to 0 and closes `done`
although `2^32` observers are still waiting. -/
theorem C5_counterexample :
    ∃ (n : Nat) (ws rest : List Step) (s : State),
      1 ≤ n ∧ ws.length = n ∧ (∀ st ∈ ws, st.isWatch = true) ∧
      (∀ st ∈ rest, st.isWatch = false) ∧ run New (ws ++ rest) = some s ∧
      exitCount rest < n ∧ s.closed = true ∧ isDone s = true := by
  have hrun := run_replicate_watch 4294967297 New 0 ⟨"A", 1⟩ rfl (by decide)
  obtain ⟨s1, hexit, -, hfire⟩ := serviceExit_watched ⟨"A", 1⟩ 4294967297 (by decide)
  have hz : wrapInt32 (wrapInt32 ((4294967297 : Nat) : Int) - 1) = 0 := by decide
  have hk : exitCount [Step.exit 0] = 1 := rfl
  refine ⟨4294967297, List.replicate 4294967297 (Step.watch 0 "A" 1), [Step.exit 0], s1,
    by decide, List.length_replicate _ _, ?_, ?_, ?_, ?_, (hfire hz).1, (hfire hz).2⟩
  · intro st hst
    rw [List.eq_of_mem_replicate hst]
    rfl
  · intro st hst
    rw [List.mem_singleton.1 hst]
    rfl
  · rw [run_concat, hrun, Option.some_bind]
    exact hexit
  · rw [hk]
    decide

/-- C7: the monitor returned by `New` has live count 0, `closed = false` and an
open `done`; every sequence of Watch calls alone (the empty one too) runs and
leaves it not complete; and a step after which `closed` or `done` has changed is
a Cancel or a service exit, and ends with live count 0. -/
theorem C7_new_not_complete :
    New.cnt = 0 ∧ New.closed = false ∧ isDone New = false ∧
      (∀ ws : List Step, (∀ st ∈ ws, st.isWatch = true) →
        ∃ s, run New ws = some s ∧ s.closed = false ∧ isDone s = false) ∧
      (∀ (s : State) (st : Step) (s1 : State), step s st = some s1 →
        (s.closed = false ∧ s1.closed = true) ∨ (isDone s = false ∧ isDone s1 = true) →
        s1.cnt = 0 ∧ (st = Step.cancel ∨ ∃ i, st = Step.exit i)) := by
  refine ⟨rfl, rfl, rfl, ?_, ?_⟩
  · intro ws hws
    obtain ⟨s, hrun, hc, hd, -⟩ := run_watches ws New hws rfl
    refine ⟨s, hrun, hc, ?_⟩
    unfold isDone
    rw [hd]
    rfl
  · intro s st s1 hst hch
    apply step_fires s st s1 hst
    rcases hch with ⟨h1, h2⟩ | ⟨h1, h2⟩
    · left
      rw [h1, h2]
      decide
    · right
      intro heq
      unfold isDone at h1 h2
      rw [heq, h1] at h2
      exact Bool.noConfusion h2

theorem C7_new_not_complete_witness :
    (∃ s, run New [.watch 0 "A" 1, .watch 0 "B" 2, .watch 0 "C" 3] = some s ∧
        s.closed = false ∧ isDone s = false) ∧
      ((Cancel New).cnt = 0 ∧
        (Step.cancel = Step.cancel ∨ ∃ i, Step.cancel = Step.exit i)) :=
  ⟨C7_new_not_complete.2.2.2.1 [.watch 0 "A" 1, .watch 0 "B" 2, .watch 0 "C" 3] (by decide),
   C7_new_not_complete.2.2.2.2 New Step.cancel (Cancel New) rfl (Or.inl ⟨rfl, rfl⟩)⟩

/-- C8 (for a live count other than the least `int32`): when an observer waits,
its service-exit step is enabled, invokes the cancellation trigger whatever the
live count and `closed` are, removes that observer and performs `cnt--`; the
live count goes down by exactly one unless it was `-2^31`. -/
theorem C8_exit_cancels_and_decrements (s : State) (i : Nat) (hi : i < s.pending.length) :
    ∃ s1, serviceExit s i = some s1 ∧ s1.cancelled = true ∧
      s1.cancelCalls = s.cancelCalls + 1 ∧
      s1.pending = s.pending.eraseIdx i ∧ s1.cnt = wrapInt32 (s.cnt - 1) ∧
      (-2147483648 < s.cnt → s.cnt ≤ 2147483647 → s1.cnt = s.cnt - 1) := by
  have hget : s.pending[i]? = some (s.pending.get ⟨i, hi⟩) := by
    rw [List.getElem?_eq_getElem hi]
    rfl
  obtain ⟨hc, hp, hcan, -, hcalls⟩ :=
    observerBody_cnt_pending { s with pending := s.pending.eraseIdx i } (s.pending.get ⟨i, hi⟩)
  refine ⟨observerBody { s with pending := s.pending.eraseIdx i } (s.pending.get ⟨i, hi⟩),
    ?_, hcan, hcalls, hp, hc, ?_⟩
  · unfold serviceExit
    rw [hget]
  · intro hlo hhi
    rw [hc]
    simp only
    unfold wrapInt32
    omega

theorem C8_exit_cancels_and_decrements_witness :
    ∃ s1, serviceExit (Watch (Watch New 0 "A" 1) 0 "B" 2) 1 = some s1 ∧ s1.cancelled = true ∧
      s1.cancelCalls = 1 ∧ s1.pending = [⟨"A", 1⟩] ∧
      s1.cnt = (Watch (Watch New 0 "A" 1) 0 "B" 2).cnt - 1 := by
  obtain ⟨s1, h1, h2, h3, h4, -, h6⟩ :=
    C8_exit_cancels_and_decrements (Watch (Watch New 0 "A" 1) 0 "B" 2) 1 (by decide)
  exact ⟨s1, h1, h2, h3, h4, h6 (by decide) (by decide)⟩

/-- C8 as stated fails: after `2^31` Watch calls the live count is `-2^31`, and
the exit of a watched service turns it into `2^31 - 1`, not into one less. -/
theorem C8_counterexample :
    ∃ (steps : List Step) (s s1 : State), run New steps = some s ∧
      serviceExit s 0 = some s1 ∧ s.cnt = -2147483648 ∧ s1.cnt = 2147483647 ∧
      ¬ (s1.cnt = s.cnt - 1) := by
  have hrun := run_replicate_watch 2147483648 New 0 ⟨"A", 1⟩ rfl (by decide)
  obtain ⟨s1, hexit, hcnt, -⟩ := serviceExit_watched ⟨"A", 1⟩ 2147483648 (by decide)
  have h0 : (watched New ⟨"A", 1⟩ 2147483648).cnt = -2147483648 := by
    show wrapInt32 ((0 : Int) + ((2147483648 : Nat) : Int)) = -2147483648
    decide
  have h1 : s1.cnt = 2147483647 := by
    rw [hcnt]
    decide
  refine ⟨List.replicate 2147483648 (Step.watch 0 "A" 1), watched New ⟨"A", 1⟩ 2147483648, s1,
    hrun, hexit, h0, h1, ?_⟩
  rw [h0, h1]
  decide

/-! ## Completion and cancellation -/

theorem CancelInv_New : CancelInv New := by
  intro h
  exact Bool.noConfusion h

theorem CancelInv_step (s : State) (st : Step) (s1 : State) (hs : CancelInv s)
    (h : step s st = some s1) : CancelInv s1 := by
  unfold CancelInv at hs ⊢
  cases st with
  | watch ctx name srv =>
    simp only [step, Option.some.injEq] at h
    subst h
    obtain ⟨h1, -, h3, h4⟩ := Watch_closed_doneCloses s ctx name srv
    rw [h1, h3, h4]
    exact hs
  | exit i =>
    obtain ⟨o, -, rfl⟩ := serviceExit_eq s s1 i h
    obtain ⟨-, -, h3, -, h5⟩ :=
      observerBody_cnt_pending { s with pending := s.pending.eraseIdx i } o
    intro _
    exact ⟨h3, by rw [h5]; omega⟩
  | cancel =>
    simp only [step, Option.some.injEq] at h
    subst h
    obtain ⟨-, -, h3, -, h5⟩ := Cancel_cnt_pending s
    intro _
    exact ⟨h3, by rw [h5]; omega⟩

/-- C16: in every state reached from `New`, a set completion signal (`closed`,
equivalently a closed `done`) comes with a cancelled derived context: the cancel
function has been called at least once. -/
theorem C16_complete_implies_cancelled (steps : List Step) (s : State)
    (h : run New steps = some s) (hc : s.closed = true ∨ isDone s = true) :
    s.cancelled = true ∧ 0 < s.cancelCalls := by
  have hinv : CloseInv s := run_preserves CloseInv CloseInv_step steps New s CloseInv_New h
  have hcan : CancelInv s := run_preserves CancelInv CancelInv_step steps New s CancelInv_New h
  rcases hc with hc | hc
  · exact hcan hc
  · exact hcan ((isDone_iff_closed s hinv).1 hc)

theorem C16_complete_implies_cancelled_witness :
    run New [.watch 0 "A" 1, .exit 0] =
        some { cnt := 0, closed := true, cancelled := true, doneCloses := 1, pending := [],
               log := ["A exited"], cancelCalls := 1 } ∧
      ((true : Bool) = true ∧ 0 < 1) :=
  ⟨by decide,
   C16_complete_implies_cancelled [.watch 0 "A" 1, .exit 0]
     { cnt := 0, closed := true, cancelled := true, doneCloses := 1, pending := [],
       log := ["A exited"], cancelCalls := 1 } (by decide) (Or.inl rfl)⟩

/-- C18: after `New`, `Watch(A)`, the exit of `A` and then `Watch(B)`, the
monitor is complete (`closed`, `done` closed, live count 0) although `B` was
passed to Watch and has not exited: `B` has no observer, no service-exit step is
enabled, and the second Watch changed nothing. -/
theorem C18_watch_after_completion_unobserved :
    ∃ s, run New [.watch 0 "A" 1, .exit 0, .watch 0 "B" 2] = some s ∧
      run New [.watch 0 "A" 1, .exit 0] = some s ∧
      s.closed = true ∧ isDone s = true ∧ s.cnt = 0 ∧ s.pending = [] ∧
      (∀ i, serviceExit s i = none) ∧ (∀ i, step s (Step.exit i) = none) := by
  refine ⟨{ cnt := 0, closed := true, cancelled := true, doneCloses := 1, pending := [],
            log := ["A exited"], cancelCalls := 1 }, by decide, by decide, rfl, rfl, rfl, rfl,
    ?_, ?_⟩
  · intro i
    rfl
  · intro i
    rfl

/-! ## Registration -/

theorem Watch_open (s : State) (ctx : Nat) (name : String) (srv : Nat) (hc : s.closed = false) :
    Watch s ctx name srv =
      { s with cnt := wrapInt32 (s.cnt + 1), pending := s.pending ++ [⟨name, srv⟩] } := by
  simp [Watch, hc]

theorem watched_fields (s : State) (o : Observer) (n : Nat) :
    (watched s o n).cnt = wrapInt32 (s.cnt + n) ∧ (watched s o n).closed = s.closed ∧
      (watched s o n).doneCloses = s.doneCloses ∧
      (watched s o n).pending.length = s.pending.length + n := by
  simp [watched]

/-- C13 (for a live count other than the greatest `int32`): on every state with
`closed = false`, Watch performs `cnt++` and starts exactly one observer, for
the given service, and changes nothing else: `closed` stays false, `done` is
not touched, the cancel function is not called, nothing is logged; the live
count goes up by exactly one unless it was `2^31 - 1`. -/
theorem C13_watch_registers (s : State) (ctx : Nat) (name : String) (srv : Nat)
    (hc : s.closed = false) :
    Watch s ctx name srv =
        { s with cnt := wrapInt32 (s.cnt + 1), pending := s.pending ++ [⟨name, srv⟩] } ∧
      (Watch s ctx name srv).pending = s.pending ++ [⟨name, srv⟩] ∧
      (Watch s ctx name srv).pending.length = s.pending.length + 1 ∧
      (Watch s ctx name srv).closed = false ∧
      (Watch s ctx name srv).doneCloses = s.doneCloses ∧
      isDone (Watch s ctx name srv) = isDone s ∧
      (Watch s ctx name srv).cancelled = s.cancelled ∧
      (Watch s ctx name srv).cancelCalls = s.cancelCalls ∧
      (Watch s ctx name srv).log = s.log ∧
      (Watch s ctx name srv).cnt = wrapInt32 (s.cnt + 1) ∧
      (-2147483648 ≤ s.cnt → s.cnt < 2147483647 → (Watch s ctx name srv).cnt = s.cnt + 1) := by
  have h := Watch_open s ctx name srv hc
  refine ⟨h, by rw [h], by rw [h]; simp, by rw [h]; exact hc, by rw [h], by rw [h]; rfl,
    by rw [h], by rw [h], by rw [h], by rw [h], ?_⟩
  intro hlo hhi
  rw [h]
  simp only
  unfold wrapInt32
  omega

theorem C13_watch_registers_witness :
    Watch (Watch New 0 "A" 1) 0 "B" 2 =
        { cnt := 2, closed := false, cancelled := false, doneCloses := 0,
          pending := [⟨"A", 1⟩, ⟨"B", 2⟩], log := [], cancelCalls := 0 } ∧
      (Watch (Watch New 0 "A" 1) 0 "B" 2).cnt = (Watch New 0 "A" 1).cnt + 1 :=
  ⟨by decide,
   (C13_watch_registers (Watch New 0 "A" 1) 0 "B" 2 (by decide)).2.2.2.2.2.2.2.2.2.2
     (by decide) (by decide)⟩

/-- C13 as stated fails: after `2^31 - 1` Watch calls the live count is the
greatest `int32`, and one more Watch turns it into `-2^31`, not into one more. -/
theorem C13_counterexample :
    ∃ (steps : List Step) (s : State), run New steps = some s ∧ s.closed = false ∧
      s.cnt = 2147483647 ∧ (Watch s 0 "B" 2).cnt = -2147483648 ∧
      ¬ ((Watch s 0 "B" 2).cnt = s.cnt + 1) := by
  have hrun := run_replicate_watch 2147483647 New 0 ⟨"A", 1⟩ rfl (by decide)
  have hf := watched_fields New ⟨"A", 1⟩ 2147483647
  have h0 : (watched New ⟨"A", 1⟩ 2147483647).cnt = 2147483647 := by
    rw [hf.1]
    decide
  have hc : (watched New ⟨"A", 1⟩ 2147483647).closed = false := hf.2.1
  have h1 : (Watch (watched New ⟨"A", 1⟩ 2147483647) 0 "B" 2).cnt = -2147483648 := by
    rw [Watch_open _ 0 "B" 2 hc]
    show wrapInt32 ((watched New ⟨"A", 1⟩ 2147483647).cnt + 1) = -2147483648
    rw [h0]
    decide
  refine ⟨List.replicate 2147483647 (Step.watch 0 "A" 1), watched New ⟨"A", 1⟩ 2147483647,
    hrun, hc, h0, h1, ?_⟩
  rw [h0, h1]
  decide

/-! ## The live count and the outstanding services -/

theorem step_pending_exact (s : State) (st : Step) (s1 : State) (h : step s st = some s1) :
    s1.pending.length + (if st.isExit = true then 1 else 0) =
      s.pending.length + (if st.isWatch = true ∧ s.closed = false then 1 else 0) := by
  cases st with
  | watch ctx name srv =>
    simp only [step, Option.some.injEq] at h
    subst h
    cases hc : s.closed with
    | true => simp [Watch, hc, Step.isExit]
    | false => simp [Watch, hc, Step.isExit, Step.isWatch]
  | exit i =>
    obtain ⟨o, ho, rfl⟩ := serviceExit_eq s s1 i h
    have hlt := pending_pos_of_getElem _ _ _ ho
    rw [(observerBody_cnt_pending _ o).2.1]
    simp only [List.length_eraseIdx, hlt, if_true, Step.isExit, Step.isWatch,
      Bool.false_eq_true, false_and, if_false]
    omega
  | cancel =>
    simp only [step, Option.some.injEq] at h
    subst h
    rw [(Cancel_cnt_pending s).2.1]
    simp [Step.isExit, Step.isWatch]

/-- The waiting observers are the accepted registrations that have not exited. -/
theorem run_pending_exact (steps : List Step) (s0 s : State) (h : run s0 steps = some s) :
    s.pending.length + exitCount steps = s0.pending.length + acceptedCount s0 steps := by
  induction steps generalizing s0 with
  | nil =>
    simp only [run, Option.some.injEq] at h
    subst h
    simp [exitCount, acceptedCount]
  | cons st rest ih =>
    rw [run_cons] at h
    cases hst : step s0 st with
    | none => simp [hst] at h
    | some s2 =>
      rw [hst] at h
      have h1 := step_pending_exact s0 st s2 hst
      have h2 := ih s2 h
      rw [exitCount_cons]
      simp only [acceptedCount, hst]
      omega

theorem wrapInt32_of_lt_half (n : Nat) (h : n < 2147483648) : wrapInt32 (n : Int) = n := by
  unfold wrapInt32
  omega

theorem wrapInt32_range (x : Int) : -2147483648 ≤ wrapInt32 x ∧ wrapInt32 x ≤ 2147483647 := by
  unfold wrapInt32
  omega

theorem acceptedCount_replicate_watch (n : Nat) (s : State) (ctx : Nat) (name : String)
    (srv : Nat) (hc : s.closed = false) :
    acceptedCount s (List.replicate n (Step.watch ctx name srv)) = n := by
  induction n generalizing s with
  | zero => rfl
  | succ k ih =>
    have hw : (Watch s ctx name srv).closed = false := by
      rw [(Watch_closed_doneCloses s ctx name srv).1, hc]
    rw [List.replicate_succ]
    simp only [acceptedCount, step, Step.isWatch, hc, and_self, if_true]
    rw [ih _ hw]
    omega

theorem exitCount_replicate_watch (n : Nat) (ctx : Nat) (name : String) (srv : Nat) :
    exitCount (List.replicate n (Step.watch ctx name srv)) = 0 := by
  induction n with
  | zero => rfl
  | succ k ih =>
    rw [List.replicate_succ, exitCount_cons, ih]
    rfl

/-- C11 (while fewer than `2^31` accepted services are outstanding): in every
state reached from `New`, the live count is the number of Watch calls that were
accepted (made while `closed` was false) minus the number of service exits that
have run, which is the number of waiting observers; Watch calls made while
`closed` was true are not counted. -/
theorem C11_count_is_outstanding (steps : List Step) (s : State)
    (h : run New steps = some s)
    (hb : acceptedCount New steps < exitCount steps + 2147483648) :
    exitCount steps ≤ acceptedCount New steps ∧
      s.pending.length = acceptedCount New steps - exitCount steps ∧
      s.cnt = ((acceptedCount New steps - exitCount steps : Nat) : Int) := by
  have hp := run_pending_exact steps New s h
  have hcnt : CountInv s := run_preserves CountInv CountInv_step steps New s CountInv_New h
  have hp0 : New.pending.length = 0 := rfl
  have hlen : s.pending.length = acceptedCount New steps - exitCount steps := by omega
  refine ⟨by omega, hlen, ?_⟩
  unfold CountInv at hcnt
  rw [hcnt, hlen]
  exact wrapInt32_of_lt_half _ (by omega)

theorem C11_count_is_outstanding_witness :
    run New [.watch 0 "A" 1, .watch 0 "B" 2, .exit 0, .cancel, .exit 0, .watch 0 "D" 4] =
        some { cnt := 0, closed := true, cancelled := true, doneCloses := 1, pending := [],
               log := ["A exited", "B exited"], cancelCalls := 3 } ∧
      acceptedCount New
        [.watch 0 "A" 1, .watch 0 "B" 2, .exit 0, .cancel, .exit 0, .watch 0 "D" 4] = 2 ∧
      (0 : Int) = ((2 - 2 : Nat) : Int) := by
  have h : run New [.watch 0 "A" 1, .watch 0 "B" 2, .exit 0, .cancel, .exit 0, .watch 0 "D" 4] =
        some { cnt := 0, closed := true, cancelled := true, doneCloses := 1, pending := [],
               log := ["A exited", "B exited"], cancelCalls := 3 } := by decide
  exact ⟨h, by decide, (C11_count_is_outstanding _ _ h (by decide)).2.2⟩

/-- C11 as stated fails: after `2^31` accepted Watch calls and no exit the live
count is `-2^31`, while `2^31` services are outstanding. -/
theorem C11_counterexample :
    ∃ (steps : List Step) (s : State), run New steps = some s ∧
      acceptedCount New steps = 2147483648 ∧ exitCount steps = 0 ∧
      s.pending.length = 2147483648 ∧ s.cnt = -2147483648 ∧
      ¬ (s.cnt = ((acceptedCount New steps - exitCount steps : Nat) : Int)) := by
  have hrun := run_replicate_watch 2147483648 New 0 ⟨"A", 1⟩ rfl (by decide)
  have hacc := acceptedCount_replicate_watch 2147483648 New 0 "A" 1 rfl
  have hex := exitCount_replicate_watch 2147483648 0 "A" 1
  have hf := watched_fields New ⟨"A", 1⟩ 2147483648
  have h0 : (watched New ⟨"A", 1⟩ 2147483648).cnt = -2147483648 := by
    rw [hf.1]
    decide
  have hl : (watched New ⟨"A", 1⟩ 2147483648).pending.length = 2147483648 := by
    rw [hf.2.2.2]
    rfl
  refine ⟨List.replicate 2147483648 (Step.watch 0 "A" 1), watched New ⟨"A", 1⟩ 2147483648,
    hrun, hacc, hex, hl, h0, ?_⟩
  rw [h0, hacc, hex]
  decide

/-- C12 (while fewer than `2^31` observers wait): in every state reached from
`New` the live count is an `int32` value, and it is not negative. -/
theorem C12_count_nonneg (steps : List Step) (s : State) (h : run New steps = some s) :
    (-2147483648 ≤ s.cnt ∧ s.cnt ≤ 2147483647) ∧
      (s.pending.length < 2147483648 → 0 ≤ s.cnt ∧ s.cnt = (s.pending.length : Int)) := by
  have hcnt : CountInv s := run_preserves CountInv CountInv_step steps New s CountInv_New h
  unfold CountInv at hcnt
  refine ⟨by rw [hcnt]; exact wrapInt32_range _, ?_⟩
  intro hb
  rw [hcnt, wrapInt32_of_lt_half _ hb]
  exact ⟨Int.natCast_nonneg _, rfl⟩

theorem C12_count_nonneg_witness :
    run New [.watch 0 "A" 1, .watch 0 "B" 2, .exit 1] =
        some { cnt := 1, closed := false, cancelled := true, doneCloses := 0,
               pending := [⟨"A", 1⟩], log := ["B exited"], cancelCalls := 1 } ∧
      ((0 : Int) ≤ 1 ∧ (1 : Int) = ((1 : Nat) : Int)) :=
  ⟨by decide,
   (C12_count_nonneg [.watch 0 "A" 1, .watch 0 "B" 2, .exit 1]
      { cnt := 1, closed := false, cancelled := true, doneCloses := 0,
        pending := [⟨"A", 1⟩], log := ["B exited"], cancelCalls := 1 } (by decide)).2
      (by decide)⟩

/-- C12 as stated fails: after `3 * 2^30` Watch calls the live count is
`-2^30`. -/
theorem C12_counterexample :
    ∃ (steps : List Step) (s : State), run New steps = some s ∧
      s.cnt = -1073741824 ∧ ¬ (0 ≤ s.cnt) := by
  have hrun := run_replicate_watch 3221225472 New 0 ⟨"A", 1⟩ rfl (by decide)
  have h0 : (watched New ⟨"A", 1⟩ 3221225472).cnt = -1073741824 := by
    rw [(watched_fields New ⟨"A", 1⟩ 3221225472).1]
    decide
  refine ⟨List.replicate 3221225472 (Step.watch 0 "A" 1), watched New ⟨"A", 1⟩ 3221225472,
    hrun, h0, ?_⟩
  rw [h0]
  decide

/-! ## Zero live services -/

theorem FreshOrSettled_step (s : State) (st : Step) (s1 : State) (hcnt : CountInv s)
    (hs : FreshOrSettled s) (h : step s st = some s1) : FreshOrSettled s1 := by
  have hcnt0 : s.cnt = wrapInt32 (s.pending.length : Int) := hcnt
  cases st with
  | watch ctx name srv =>
    simp only [step, Option.some.injEq] at h
    subst h
    cases hc : s.closed with
    | true =>
      have hw : Watch s ctx name srv = s := by simp [Watch, hc]
      rw [hw]
      exact hs
    | false =>
      right
      intro hnil
      rw [Watch_open s ctx name srv hc] at hnil
      simp at hnil
  | exit i =>
    obtain ⟨o, ho, rfl⟩ := serviceExit_eq s s1 i h
    have hlt := pending_pos_of_getElem _ _ _ ho
    right
    intro hnil
    rw [(observerBody_cnt_pending _ o).2.1] at hnil
    have hl : (s.pending.eraseIdx i).length = 0 := by
      simp only at hnil
      rw [hnil]
      rfl
    rw [List.length_eraseIdx] at hl
    simp only [hlt, if_true] at hl
    have hone : s.pending.length = 1 := by omega
    rcases Bool.eq_false_or_eq_true s.closed with hc | hc
    · rcases observerBody_closes { s with pending := s.pending.eraseIdx i } o with h1 | h1
      · rw [h1.2]
        exact hc
      · exact h1.2.1
    · refine (observerBody_fires { s with pending := s.pending.eraseIdx i } o ?_ hc).1
      show wrapInt32 (s.cnt - 1) = 0
      rw [hcnt0, hone]
      decide
  | cancel =>
    simp only [step, Option.some.injEq] at h
    subst h
    right
    intro hnil
    rw [(Cancel_cnt_pending s).2.1] at hnil
    rcases Cancel_closes s with h1 | h1
    · rcases h1.2.2 with h2 | h2
      · rw [hcnt0, hnil] at h2
        exact absurd rfl h2
      · rw [h1.2.1]
        exact h2
    · exact h1.2.1

theorem CountInv_FreshOrSettled_run (steps : List Step) (s : State)
    (h : run New steps = some s) : CountInv s ∧ FreshOrSettled s :=
  run_preserves (fun t => CountInv t ∧ FreshOrSettled t)
    (fun t st t1 ht hst =>
      ⟨CountInv_step t st t1 ht.1 hst, FreshOrSettled_step t st t1 ht.1 ht.2 hst⟩)
    steps New s ⟨CountInv_New, Or.inl rfl⟩ h

theorem step_cancelCalls (s : State) (st : Step) (s1 : State) (h : step s st = some s1) :
    s1.cancelCalls = s.cancelCalls + (if (!st.isWatch) = true then 1 else 0) := by
  cases st with
  | watch ctx name srv =>
    simp only [step, Option.some.injEq] at h
    subst h
    rw [(Watch_closed_doneCloses s ctx name srv).2.2.2]
    rfl
  | exit i =>
    obtain ⟨o, -, rfl⟩ := serviceExit_eq s s1 i h
    rw [(observerBody_cnt_pending _ o).2.2.2.2]
    rfl
  | cancel =>
    simp only [step, Option.some.injEq] at h
    subst h
    rw [(Cancel_cnt_pending s).2.2.2.2]
    rfl

/-- The cancel function has been called once for each Cancel call and each
service exit of a run. -/
theorem run_cancelCalls (steps : List Step) (s0 s : State) (h : run s0 steps = some s) :
    s.cancelCalls = s0.cancelCalls + otherCount steps := by
  induction steps generalizing s0 with
  | nil =>
    simp only [run, Option.some.injEq] at h
    subst h
    rfl
  | cons st rest ih =>
    rw [run_cons] at h
    cases hst : step s0 st with
    | none => simp [hst] at h
    | some s2 =>
      rw [hst] at h
      rw [ih s2 h, step_cancelCalls s0 st s2 hst]
      simp only [otherCount, List.countP_cons]
      omega

/-- C17 (first part on runs during which fewer than `2^32` observers wait at
any time): every state reached from `New` is the state `New` returned, or has
`closed` true exactly when the live count is 0, so the only such state with
live count 0 and an unset completion signal is the fresh one; and, with no
bound, a state other than the fresh one, in particular any state after a Cancel
or a service exit, has its completion signal set whenever no observer waits. -/
theorem C17_fresh_or_closed_iff_zero (steps : List Step) (s : State)
    (h : run New steps = some s) :
    (peakPending New steps < 4294967296 →
        (s = New ∨ (s.closed = true ↔ s.cnt = 0)) ∧
          (s.cnt = 0 → isDone s = false → s = New)) ∧
      (s ≠ New → s.pending = [] → s.closed = true ∧ isDone s = true) ∧
      ((∃ st ∈ steps, st.isWatch = false) →
        s ≠ New ∧ (s.pending = [] → s.closed = true ∧ isDone s = true)) := by
  obtain ⟨hcnt, hfs⟩ := CountInv_FreshOrSettled_run steps s h
  have hcl : CloseInv s := run_preserves CloseInv CloseInv_step steps New s CloseInv_New h
  have hcnt0 : s.cnt = wrapInt32 (s.pending.length : Int) := hcnt
  have hsettled : s ≠ New → s.pending = [] → s.closed = true ∧ isDone s = true := by
    intro hne hnil
    rcases hfs with hnew | hset
    · exact absurd hnew hne
    · exact ⟨hset hnil, (isDone_iff_closed s hcl).2 (hset hnil)⟩
  refine ⟨?_, hsettled, ?_⟩
  · intro hb
    obtain ⟨-, hidle, hl⟩ := run_peak steps New s h CountInv_New (fun _ => rfl) hb
    have hzero : s.cnt = 0 → s.pending = [] := by
      intro hz
      rw [hcnt0] at hz
      exact List.eq_nil_of_length_eq_zero (wrapInt32_of_lt _ hl hz)
    constructor
    · rcases hfs with hnew | hset
      · exact Or.inl hnew
      · right
        constructor
        · intro hc
          rw [hcnt0, hidle hc]
          rfl
        · intro hz
          exact hset (hzero hz)
    · intro hz hd
      rcases hfs with hnew | hset
      · exact hnew
      · have hc := (isDone_iff_closed s hcl).2 (hset (hzero hz))
        rw [hd] at hc
        exact Bool.noConfusion hc
  · rintro ⟨st, hmem, hst⟩
    have hpos : 0 < otherCount steps :=
      List.countP_pos_iff.2 ⟨st, hmem, by simp [hst]⟩
    have hcalls := run_cancelCalls steps New s h
    have hne : s ≠ New := by
      intro heq
      rw [heq] at hcalls
      have h0 : New.cancelCalls = 0 := rfl
      omega
    exact ⟨hne, hsettled hne⟩

theorem C17_fresh_or_closed_iff_zero_witness :
    run New [.watch 0 "A" 1, .cancel] =
        some { cnt := 1, closed := false, cancelled := true, doneCloses := 0,
               pending := [⟨"A", 1⟩], log := [], cancelCalls := 1 } ∧
      run New [.watch 0 "A" 1, .cancel, .exit 0] =
        some { cnt := 0, closed := true, cancelled := true, doneCloses := 1,
               pending := [], log := ["A exited"], cancelCalls := 2 } ∧
      ((({ cnt := 1, closed := false, cancelled := true, doneCloses := 0,
           pending := [⟨"A", 1⟩], log := [], cancelCalls := 1 } : State) = New ∨
          ((false : Bool) = true ↔ (1 : Int) = 0)) ∧
        ((1 : Int) = 0 → (false : Bool) = false →
          ({ cnt := 1, closed := false, cancelled := true, doneCloses := 0,
             pending := [⟨"A", 1⟩], log := [], cancelCalls := 1 } : State) = New)) ∧
      ((true : Bool) = true ∧ (true : Bool) = true) :=
  ⟨by decide, by decide,
   (C17_fresh_or_closed_iff_zero [.watch 0 "A" 1, .cancel]
      { cnt := 1, closed := false, cancelled := true, doneCloses := 0,
        pending := [⟨"A", 1⟩], log := [], cancelCalls := 1 } (by decide)).1 (by decide),
   ((C17_fresh_or_closed_iff_zero [.watch 0 "A" 1, .cancel, .exit 0]
      { cnt := 0, closed := true, cancelled := true, doneCloses := 1,
        pending := [], log := ["A exited"], cancelCalls := 2 } (by decide)).2.2
      ⟨.cancel, by decide, rfl⟩).2 rfl⟩

/-- C17 as stated fails: after `2^32` Watch calls the live count is 0 again and
the completion signal is unset, in a state with `2^32` waiting observers, which
is not the state `New` returned. -/
theorem C17_counterexample :
    ∃ (steps : List Step) (s : State), run New steps = some s ∧ s ≠ New ∧
      s.pending.length = 4294967296 ∧ s.cnt = 0 ∧ s.closed = false ∧ isDone s = false ∧
      ¬ (s = New ∨ (s.closed = true ↔ s.cnt = 0)) := by
  have hrun := run_replicate_watch 4294967296 New 0 ⟨"A", 1⟩ rfl (by decide)
  have hf := watched_fields New ⟨"A", 1⟩ 4294967296
  have h0 : (watched New ⟨"A", 1⟩ 4294967296).cnt = 0 := by
    rw [hf.1]
    decide
  have hc : (watched New ⟨"A", 1⟩ 4294967296).closed = false := hf.2.1
  have hl : (watched New ⟨"A", 1⟩ 4294967296).pending.length = 4294967296 := by
    rw [hf.2.2.2]
    rfl
  have hne : watched New ⟨"A", 1⟩ 4294967296 ≠ New := by
    intro heq
    rw [heq] at hl
    exact absurd hl (by decide)
  have hd : isDone (watched New ⟨"A", 1⟩ 4294967296) = false := by
    unfold isDone
    rw [hf.2.2.1]
    rfl
  refine ⟨List.replicate 4294967296 (Step.watch 0 "A" 1), watched New ⟨"A", 1⟩ 4294967296,
    hrun, hne, hl, h0, hc, hd, ?_⟩
  rintro (heq | hiff)
  · exact hne heq
  · have := hiff.2 h0
    rw [hc] at this
    exact Bool.noConfusion this

/-! ## Scope and name of a registration -/

theorem getElem?_concat_last (l : List Observer) (o : Observer) :
    (l ++ [o])[l.length]? = some o := by
  induction l with
  | nil => rfl
  | cons a rest ih => simp

theorem eraseIdx_concat_last (l : List Observer) (o : Observer) :
    (l ++ [o]).eraseIdx l.length = l := by
  induction l with
  | nil => rfl
  | cons a rest ih => simpa using ih

/-- The `Monitor` struct after an observer body depends on the struct before it
only, not on the observer or on the other goroutines. -/
theorem observerBody_fields (s t : State) (o p : Observer) (h : s.fields = t.fields) :
    (observerBody s o).fields = (observerBody t p).fields := by
  cases s with
  | mk cnt closed cancelled doneCloses pending log cancelCalls =>
    cases t with
    | mk cnt1 closed1 cancelled1 doneCloses1 pending1 log1 cancelCalls1 =>
      simp only [State.fields, Fields.mk.injEq] at h
      obtain ⟨rfl, rfl, rfl, rfl, rfl⟩ := h
      by_cases hz : wrapInt32 (cnt - 1) = 0 ∧ closed = false
      · simp [observerBody, State.fields, hz]
      · simp [observerBody, State.fields, hz]

theorem serviceExit_fields_congr (s t : State) (hf : s.fields = t.fields)
    (hl : s.pending.length = t.pending.length) (i : Nat) :
    (serviceExit s i).map State.fields = (serviceExit t i).map State.fields := by
  unfold serviceExit
  by_cases hi : i < s.pending.length
  · have hi1 : i < t.pending.length := hl ▸ hi
    rw [List.getElem?_eq_getElem hi, List.getElem?_eq_getElem hi1]
    simp only [Option.map_some']
    exact congrArg some (observerBody_fields _ _ _ _ hf)
  · have hi1 : ¬ i < t.pending.length := hl ▸ hi
    rw [List.getElem?_eq_none (Nat.le_of_not_lt hi), List.getElem?_eq_none (Nat.le_of_not_lt hi1)]

theorem Watch_fields_length (s : State) (c1 c2 : Nat) (n1 n2 : String) (srv : Nat) :
    (Watch s c1 n1 srv).fields = (Watch s c2 n2 srv).fields ∧
      (Watch s c1 n1 srv).pending.length = (Watch s c2 n2 srv).pending.length ∧
      (Watch s c1 n1 srv).log = (Watch s c2 n2 srv).log ∧
      (Watch s c1 n1 srv).pending.map Observer.srv =
        (Watch s c2 n2 srv).pending.map Observer.srv := by
  rcases Bool.eq_false_or_eq_true s.closed with hc | hc
  · have h1 : Watch s c1 n1 srv = s := by simp [Watch, hc]
    have h2 : Watch s c2 n2 srv = s := by simp [Watch, hc]
    rw [h1, h2]
    exact ⟨rfl, rfl, rfl, rfl⟩
  · rw [Watch_open s c1 n1 srv hc, Watch_open s c2 n2 srv hc]
    simp [State.fields]

/-- C14: the scope and the name passed to Watch do not influence the monitor:
Watch calls for the same service with any two scopes and names give the same
`Monitor` struct, the same number of observers for the same services and the
same log; every later service-exit step is enabled for both or for neither and
gives the same `Monitor` struct; and when the new observer runs, the two results
differ in the logged name only. -/
theorem C14_scope_and_name_irrelevant (s : State) (srv c1 c2 : Nat) (n1 n2 : String) :
    Watch s c1 n1 srv = Watch s c2 n1 srv ∧
      (Watch s c1 n1 srv).fields = (Watch s c2 n2 srv).fields ∧
      (Watch s c1 n1 srv).log = (Watch s c2 n2 srv).log ∧
      (Watch s c1 n1 srv).pending.map Observer.srv =
        (Watch s c2 n2 srv).pending.map Observer.srv ∧
      (∀ i, (serviceExit (Watch s c1 n1 srv) i).map State.fields =
        (serviceExit (Watch s c2 n2 srv) i).map State.fields) ∧
      (s.closed = false →
        ∃ t1 t2, serviceExit (Watch s c1 n1 srv) s.pending.length = some t1 ∧
          serviceExit (Watch s c2 n2 srv) s.pending.length = some t2 ∧
          t1.fields = t2.fields ∧ t1.pending = s.pending ∧ t2.pending = s.pending ∧
          t1.log = s.log ++ [n1 ++ " exited"] ∧ t2.log = s.log ++ [n2 ++ " exited"]) := by
  obtain ⟨hf, hl, hlog, hsrv⟩ := Watch_fields_length s c1 c2 n1 n2 srv
  refine ⟨rfl, hf, hlog, hsrv, serviceExit_fields_congr _ _ hf hl, ?_⟩
  intro hc
  have key : ∀ (c : Nat) (n : String),
      serviceExit (Watch s c n srv) s.pending.length =
        some (observerBody { Watch s c n srv with pending := s.pending } ⟨n, srv⟩) := by
    intro c n
    unfold serviceExit
    rw [Watch_open s c n srv hc]
    simp only [getElem?_concat_last, eraseIdx_concat_last]
  refine ⟨_, _, key c1 n1, key c2 n2, observerBody_fields _ _ _ _ ?_, ?_, ?_, ?_, ?_⟩
  · rw [Watch_open s c1 n1 srv hc, Watch_open s c2 n2 srv hc]
  · rw [(observerBody_cnt_pending _ _).2.1]
  · rw [(observerBody_cnt_pending _ _).2.1]
  · rw [(observerBody_cnt_pending _ _).2.2.2.1, Watch_open s c1 n1 srv hc]
  · rw [(observerBody_cnt_pending _ _).2.2.2.1, Watch_open s c2 n2 srv hc]

theorem C14_scope_and_name_irrelevant_witness :
    ∃ t1 t2, serviceExit (Watch New 7 "A" 1) New.pending.length = some t1 ∧
      serviceExit (Watch New 8 "B" 1) New.pending.length = some t2 ∧
      t1.fields = t2.fields ∧ t1.pending = New.pending ∧ t2.pending = New.pending ∧
      t1.log = New.log ++ ["A" ++ " exited"] ∧ t2.log = New.log ++ ["B" ++ " exited"] :=
  (C14_scope_and_name_irrelevant New 1 7 8 "A" "B").2.2.2.2.2 rfl

end Monitor
